import Mathlib

/-!
Verification development for the `crawlerclub/httpcache` module: a shallow
embedding of the policy-driven HTTP cache layer (`httpcache.go`, current
revision) together with theorems about its behaviour.

Modelling conventions:
* Go `time.Duration` is `Int` (nanoseconds); `time.Time` instants are `Int`
  nanoseconds, with Go's zero time (`IsZero`) embedded as `Option.none` for
  the `CrawledAt` field.
* Compiled regular expressions are embedded as their matching behaviour, a
  function `String → Bool` (the result of `Pattern.MatchString`); regex
  compilation (`regexp.Compile`) is a parameter of the loader, since the
  regex engine is an external collaborator.  `regexp.MustCompile ".*"`
  matches every string and is embedded as the constantly-true matcher.
* The persistent key-value store is a function `String → Option StoredBytes`;
  a backend read error behaves exactly like an absent key in `Cache.Get`
  (both return "absent" without deleting), so the two are identified.
  Undecodable bytes are the `garbage` constructor.
* The HTTP transport (`http.NewRequest` + `Client.Do` + `io.ReadAll`) is a
  parameter `String → FetchOutcome`; the `fetched` flag of each operation
  records whether the network round-trip (`Client.Do`) was performed.
* The key deriver `hashKey` (SHA-256, hex) is an opaque parameter
  `String → String`: no claim depends on concrete hash values.
-/

namespace HttpCache

/-- Go `time.Duration`: a count of nanoseconds. -/
abbrev Duration := Int

/-- Unit table of Go `time.ParseDuration` (`time/format.go` `unitMap`),
in nanoseconds.  Note that there is no `d` (days) unit. -/
def unitMap : String → Option Nat
  | "ns" => some 1
  | "us" => some 1000
  | "µs" => some 1000
  | "μs" => some 1000
  | "ms" => some 1000000
  | "s" => some 1000000000
  | "m" => some 60000000000
  | "h" => some 3600000000000
  | _ => none

/-- Go's `quote` used in duration error messages: wraps in double quotes.
(Go also escapes non-printable characters; the inputs reached here are
plain ASCII, where quoting is exactly this.) -/
def goQuote (s : String) : String := "\"" ++ s ++ "\""

/-- Is the character an ASCII decimal digit (the `'0' <= c && c <= '9'`
tests of `time/format.go`). -/
def isDigit (c : Char) : Bool := '0' ≤ c ∧ c ≤ '9'

/-- Go `time.leadingInt`: consume a leading run of digits, accumulating
into `x`; errors (as Go does) if the value would pass 2^63. -/
def leadingIntAux : Nat → List Char → Except Unit (Nat × List Char)
  | x, [] => .ok (x, [])
  | x, c :: rest =>
    if isDigit c then
      if x > 2 ^ 63 / 10 then .error ()
      else
        let y := x * 10 + (c.toNat - '0'.toNat)
        if y > 2 ^ 63 then .error ()
        else leadingIntAux y rest
    else .ok (x, c :: rest)

/-- Go `time.leadingInt`, entry point. -/
def leadingInt (s : List Char) : Except Unit (Nat × List Char) :=
  leadingIntAux 0 s

/-- Go `time.leadingFraction`: consume digits after the decimal point,
returning the accumulated numerator and the power-of-ten scale.  Go keeps
`scale` as a `float64`; it is kept exactly as a natural number here, which
agrees with Go wherever the float computation is exact. -/
def leadingFractionAux : Nat → Nat → Bool → List Char → Nat × Nat × List Char
  | x, scale, _, [] => (x, scale, [])
  | x, scale, overflow, c :: rest =>
    if isDigit c then
      if overflow then leadingFractionAux x scale overflow rest
      else if x > (2 ^ 63 - 1) / 10 then leadingFractionAux x scale true rest
      else
        let y := x * 10 + (c.toNat - '0'.toNat)
        if y > 2 ^ 63 then leadingFractionAux x scale true rest
        else leadingFractionAux y (scale * 10) overflow rest
    else (x, scale, c :: rest)

/-- Go `time.leadingFraction`, entry point. -/
def leadingFraction (s : List Char) : Nat × Nat × List Char :=
  leadingFractionAux 0 1 false s

/-- Characters that terminate a unit token in `ParseDuration`
(`c == '.' || '0' <= c && c <= '9'`). -/
def endsUnit (c : Char) : Bool := c = '.' ∨ isDigit c

/-- Main loop of Go `time.ParseDuration`, accumulating the (unsigned)
nanosecond total `d`.  Each successful iteration consumes at least the unit
character, so fuel `length + 1` can never run out; the additions are taken
modulo 2^64 exactly as Go's `uint64` arithmetic does.  The fractional
contribution `f * unit / scale` is Go's
`uint64(float64(f) * (float64(unit) / scale))` computed exactly. -/
def durationLoop (orig : String) : Nat → Nat → List Char → Except String Nat
  | _, d, [] => .ok d
  | 0, _, _ :: _ => .error ("time: invalid duration " ++ goQuote orig)
  | fuel + 1, d, c :: cs =>
    if ¬ (c = '.' ∨ isDigit c) then
      .error ("time: invalid duration " ++ goQuote orig)
    else
      match leadingInt (c :: cs) with
      | .error _ => .error ("time: invalid duration " ++ goQuote orig)
      | .ok (v, s₁) =>
        let pre := decide (s₁.length ≠ (c :: cs).length)
        let fps : Nat × Nat × List Char × Bool :=
          match s₁ with
          | '.' :: rest =>
            let fsr := leadingFraction rest
            (fsr.1, fsr.2.1, fsr.2.2, decide (fsr.2.2.length ≠ rest.length))
          | other => (0, 1, other, false)
        let f := fps.1
        let scale := fps.2.1
        let s₂ := fps.2.2.1
        let post := fps.2.2.2
        if ¬ pre ∧ ¬ post then
          .error ("time: invalid duration " ++ goQuote orig)
        else
          let u := s₂.takeWhile (fun ch => ¬ endsUnit ch)
          let s₃ := s₂.dropWhile (fun ch => ¬ endsUnit ch)
          if u = [] then
            .error ("time: missing unit in duration " ++ goQuote orig)
          else
            match unitMap u.asString with
            | none =>
              .error ("time: unknown unit " ++ goQuote u.asString ++
                " in duration " ++ goQuote orig)
            | some unit =>
              if v > 2 ^ 63 / unit then
                .error ("time: invalid duration " ++ goQuote orig)
              else
                let v₁ := v * unit
                let v₂ := if f > 0 then (v₁ + f * unit / scale) % 2 ^ 64 else v₁
                if f > 0 ∧ v₂ > 2 ^ 63 then
                  .error ("time: invalid duration " ++ goQuote orig)
                else
                  let d₁ := (d + v₂) % 2 ^ 64
                  if d₁ > 2 ^ 63 then
                    .error ("time: invalid duration " ++ goQuote orig)
                  else durationLoop orig fuel d₁ s₃

/-- Body of Go `time.ParseDuration` after the optional sign has been
consumed (`neg` records a leading `-`): the `"0"` special case, the
empty-string error, the accumulation loop, and the final sign/bound
handling. -/
def parseDurationBody (neg : Bool) (orig : String) (s : List Char) :
    Except String Duration :=
  if s = ['0'] then .ok 0
  else if s = [] then .error ("time: invalid duration " ++ goQuote orig)
  else
    match durationLoop orig (s.length + 1) 0 s with
    | .error e => .error e
    | .ok d =>
      if neg then .ok (-(d : Int))
      else if d > 2 ^ 63 - 1 then
        .error ("time: invalid duration " ++ goQuote orig)
      else .ok (d : Int)

/-- Go `time.ParseDuration`: parse a duration string such as `"10s"`,
`"1h30m"` or `"-5m"` into nanoseconds.  Accepted units are exactly `ns`,
`us`/`µs`/`μs`, `ms`, `s`, `m`, `h`. -/
def ParseDuration (str : String) : Except String Duration :=
  match str.toList with
  | '-' :: rest => parseDurationBody true str rest
  | '+' :: rest => parseDurationBody false str rest
  | other => parseDurationBody false str other

/-- A cache policy: the matching behaviour of the compiled regular
expression (`Pattern.MatchString`, substring semantics) and a TTL. -/
structure CachePolicy where
  pattern : String → Bool
  ttl : Duration

/-- Matching behaviour of `regexp.MustCompile(".*")`: `.*` matches (a
substring of) every string, including the empty one. -/
def matchAll : String → Bool := fun _ => true

/-- The catch-all default policy built in `LoadPoliciesFromFile`:
pattern `.*`, TTL `10 * time.Minute`. -/
def defaultPolicy : CachePolicy :=
  { pattern := matchAll, ttl := 600000000000 }

/-- The first-match-wins TTL lookup loop of `Cache.GetTTL` (named after
the old revision's `getTTL` method), factored over the policy list:
`for _, policy := range c.Policies { if policy.Pattern.MatchString(url) {
return policy.TTL } }; return 0`. -/
def getTTL : List CachePolicy → String → Duration
  | [], _ => 0
  | p :: ps, url => if p.pattern url then p.ttl else getTTL ps url

/-- Go `unicode.IsSpace` restricted to ASCII, as used by
`strings.TrimSpace` on policy lines.  (Go also strips a few non-ASCII
space code points; policy files are ASCII.) -/
def isSpace (c : Char) : Bool :=
  c = ' ' ∨ c = '\t' ∨ c = '\n' ∨ c = '\x0b' ∨ c = '\x0c' ∨ c = '\r'

/-- Drop leading whitespace from a character list. -/
def dropSpace : List Char → List Char
  | [] => []
  | c :: rest => if isSpace c then dropSpace rest else c :: rest

/-- Go `strings.TrimSpace`. -/
def goTrim (s : String) : String :=
  ((dropSpace ((dropSpace s.toList).reverse)).reverse).asString

/-- Split a line at its last `=` (Go `strings.LastIndex(line, "=")`),
returning the text before and after it, or `none` when the line has no
`=`. -/
def splitAtLastEq : List Char → Option (List Char × List Char)
  | [] => none
  | c :: rest =>
    match splitAtLastEq rest with
    | some (pre, post) => some (c :: pre, post)
    | none => if c = '=' then some ([], rest) else none

/-- Shape of one policy-file line after the textual phase of the loader
loop: skipped, malformed (no `=`), or a pattern/duration pair. -/
inductive LineForm where
  | skip
  | malformed (line : String)
  | policy (pat dur : String)

/-- Textual phase of the loader loop on one raw line: trim, skip blank and
`#`-initial lines, strip an inline comment at the first `#`, split at the
last `=`, and trim the two halves. -/
def classifyLine (rawLine : String) : LineForm :=
  let line := goTrim rawLine
  if line = "" ∨ line.toList.take 1 = ['#'] then .skip
  else
    let line₂ :=
      if line.toList.contains '#' then
        goTrim (line.toList.takeWhile (fun c => ¬ c = '#')).asString
      else line
    match splitAtLastEq line₂.toList with
    | none => .malformed line₂
    | some (pre, post) => .policy (goTrim pre.asString) (goTrim post.asString)

/-- One iteration of the `LoadPoliciesFromFile` scanner loop: `.ok none`
when the line is skipped, `.ok (some p)` when it yields a policy, `.error`
when it aborts the load.  `compile` is the external `regexp.Compile`. -/
def parsePolicyLine (compile : String → Except String (String → Bool))
    (rawLine : String) : Except String (Option CachePolicy) :=
  match classifyLine rawLine with
  | .skip => .ok none
  | .malformed line => .error ("invalid policy format: " ++ line)
  | .policy pat dur =>
    match compile pat with
    | .error e => .error ("invalid regex pattern: " ++ e)
    | .ok matcher =>
      match ParseDuration dur with
      | .error e => .error ("invalid duration: " ++ e)
      | .ok d => .ok (some { pattern := matcher, ttl := d })

/-- The scanner loop of `LoadPoliciesFromFile` over all lines, in order. -/
def loadPolicyLines (compile : String → Except String (String → Bool)) :
    List String → Except String (List CachePolicy)
  | [] => .ok []
  | l :: ls =>
    match parsePolicyLine compile l with
    | .error e => .error e
    | .ok none => loadPolicyLines compile ls
    | .ok (some p) => (loadPolicyLines compile ls).map (fun ps => p :: ps)

/-- Go `LoadPoliciesFromFile`.  `file = none` embeds both the empty
filename and a missing file (`os.IsNotExist`), which return only the
default policy; otherwise the lines are parsed in order and the catch-all
default policy is appended last. -/
def LoadPoliciesFromFile (compile : String → Except String (String → Bool))
    (file : Option (List String)) : Except String (List CachePolicy) :=
  match file with
  | none => .ok [defaultPolicy]
  | some lines =>
    match loadPolicyLines compile lines with
    | .error e => .error e
    | .ok ps => .ok (ps ++ [defaultPolicy])

/-- Go `CacheEntry` (current revision).  `crawledAt = none` embeds the Go
zero time (`CrawledAt.IsZero()`), i.e. an entry written by the legacy
format without the `crawled_at` field; `data` is the body byte sequence. -/
structure CacheEntry where
  data : List Nat
  url : String
  finalURL : String
  crawledAt : Option Int
  expiresAt : Int
deriving DecidableEq

/-- Bytes held in the store under a key: either the encoding of a
`CacheEntry`, or bytes on which `store.BytesToObject` fails. -/
inductive StoredBytes where
  | enc (e : CacheEntry)
  | garbage
deriving DecidableEq

/-- The persisted key-value store, as visible through `Cache.Get`:
`none` embeds both an absent key and a backend read error (the code
treats `err != nil || value == nil` identically, reporting absent without
deleting). -/
def Store := String → Option StoredBytes

/-- Go `Cache`: a store handle plus the ordered policy list. -/
structure Cache where
  policies : List CachePolicy
  store : Store

/-- Go `Cache.GetTTL`. -/
def Cache.GetTTL (c : Cache) (url : String) : Duration :=
  getTTL c.policies url

/-- The expiry test of `Cache.Get`: when `CrawledAt` is set, the entry is
expired iff `now.Sub(entry.CrawledAt) > c.GetTTL(entry.URL)` — the TTL is
resolved against the policies held by the cache at read time, keyed by the
stored requested URL; otherwise (legacy entry) iff
`now.After(entry.ExpiresAt)`. -/
def isExpired (policies : List CachePolicy) (now : Int) (e : CacheEntry) : Bool :=
  match e.crawledAt with
  | some t => decide (now - t > getTTL policies e.url)
  | none => decide (now > e.expiresAt)

/-- Point update of a store: `LevelStore.Put`. -/
def storePut (st : Store) (key : String) (v : StoredBytes) : Store :=
  fun k => if k = key then some v else st k

/-- Point removal from a store: `LevelStore.Delete`. -/
def storeDelete (st : Store) (key : String) : Store :=
  fun k => if k = key then none else st k

/-- Go `Cache.Get` (current revision): look up, decode, apply the expiry
rule, lazily delete an expired entry, and return `(data, finalURL, found)`
together with the cache after any deletion. -/
def Cache.Get (c : Cache) (now : Int) (key : String) :
    Option (List Nat × String) × Cache :=
  match c.store key with
  | none => (none, c)
  | some .garbage => (none, c)
  | some (.enc e) =>
    if isExpired c.policies now e then
      (none, { c with store := storeDelete c.store key })
    else
      (some (e.data, e.finalURL), c)

/-- The entry constructed by `Cache.Set`: the body, the requested and
final URLs, `CrawledAt = now` and `ExpiresAt = now.Add(ttl)`. -/
def setEntry (now : Int) (data : List Nat) (url finalURL : String)
    (ttl : Duration) : CacheEntry :=
  { data := data, url := url, finalURL := finalURL,
    crawledAt := some now, expiresAt := now + ttl }

/-- Go `Cache.Set` (current revision): store an entry with
`CrawledAt = now` and `ExpiresAt = now.Add(ttl)`.  Encoding and `Put`
failures are logged and swallowed in the source and have no effect on the
caller, so the successful path is the modelled one. -/
def Cache.Set (c : Cache) (now : Int) (key : String) (data : List Nat)
    (url finalURL : String) (ttl : Duration) : Cache :=
  { c with store := storePut c.store key (.enc (setEntry now data url finalURL ttl)) }

/-- Go `Cache.Delete`. -/
def Cache.Delete (c : Cache) (key : String) : Cache :=
  { c with store := storeDelete c.store key }

/-- Outcome of the network phase of a fetch for one URL, as a parameter:
`reqErr` is a `http.NewRequest` failure (before any network I/O), `doErr`
a `Client.Do` transport error, `readErr` an `io.ReadAll` failure after a
response whose final URL is already known, and `ok` a successful body read
with the post-redirect final URL. -/
inductive FetchOutcome where
  | reqErr (e : String)
  | doErr (e : String)
  | readErr (finalURL : String) (e : String)
  | ok (body : List Nat) (finalURL : String)

/-- Result of `GetWithValidator`/`GetWithFinalURL`: the Go triple
`([]byte, string, error)` plus the cache after the call and whether the
network round-trip was performed. -/
structure GetOut where
  data : Option (List Nat)
  finalURL : String
  err : Option String
  cache : Cache
  fetched : Bool

/-- The cache-read phase of `GetWithValidator` (lines guarded by
`if ttl > 0`): on a hit, an absent or accepting validator returns the
cached value; a rejecting validator deletes the invalid entry
(`hc.cache.Delete(key)`) and falls through to the network fetch. -/
def readPhase (c : Cache) (now : Int) (key : String)
    (validator : Option (List Nat → Bool)) (ttl : Duration) :
    Option (List Nat × String) × Cache :=
  if 0 < ttl then
    match Cache.Get c now key with
    | (some (value, finalURL), c₁) =>
      match validator with
      | none => (some (value, finalURL), c₁)
      | some v =>
        if v value then (some (value, finalURL), c₁)
        else (none, Cache.Delete c₁ key)
    | (none, c₁) => (none, c₁)
  else (none, c)

/-- Go `HTTPClient.GetWithValidator`: derive the key, resolve the TTL, try
the cache (read phase above), otherwise fetch from the network; on success
run the validator on the fresh bytes and write through only when it
accepts (or is absent) and `ttl > 0`. -/
def GetWithValidator (hashKey : String → String)
    (transport : String → FetchOutcome) (c : Cache) (now : Int)
    (url : String) (validator : Option (List Nat → Bool)) : GetOut :=
  let key := hashKey url
  let ttl := Cache.GetTTL c url
  match readPhase c now key validator ttl with
  | (some (value, finalURL), c₁) =>
    { data := some value, finalURL := finalURL, err := none,
      cache := c₁, fetched := false }
  | (none, c₁) =>
    match transport url with
    | .reqErr e =>
      { data := none, finalURL := "", err := some e, cache := c₁,
        fetched := false }
    | .doErr e =>
      { data := none, finalURL := "", err := some e, cache := c₁,
        fetched := true }
    | .readErr finalURL e =>
      { data := none, finalURL := finalURL, err := some e, cache := c₁,
        fetched := true }
    | .ok body finalURL =>
      let shouldCache :=
        match validator with
        | none => true
        | some v => v body
      let c₂ :=
        if shouldCache = true ∧ 0 < ttl then
          Cache.Set c₁ now key body url finalURL ttl
        else c₁
      { data := some body, finalURL := finalURL, err := none,
        cache := c₂, fetched := true }

/-- Go `HTTPClient.Get`: `GetWithValidator` with a nil validator, final
URL discarded. -/
def Get (hashKey : String → String) (transport : String → FetchOutcome)
    (c : Cache) (now : Int) (url : String) : GetOut :=
  GetWithValidator hashKey transport c now url none

/-- Go `HTTPClient.GetWithFinalURL`: `GetWithValidator` with a nil
validator. -/
def GetWithFinalURL (hashKey : String → String)
    (transport : String → FetchOutcome) (c : Cache) (now : Int)
    (url : String) : GetOut :=
  GetWithValidator hashKey transport c now url none

/-- Go `NewClient` (core part): an independent client whose cache holds
the caller-supplied policy list exactly as given — no catch-all is
appended — over a fresh store handle.  The store-directory checks are
I/O concerns of the collaborator. -/
def NewClient (st : Store) (policies : List CachePolicy) : Cache :=
  { policies := policies, store := st }

/-- Result of `HTTPClient.Fetch`: the Go pair `([]byte, error)` plus cache
state and the network flag. -/
structure FetchOut where
  data : Option (List Nat)
  err : Option String
  cache : Cache
  fetched : Bool

/-- Go `HTTPClient.Fetch`: always performs the network request (the cache
is never read), then — only when the resolved TTL is positive and the
validator is absent or accepts — overwrites the cache entry, storing the
empty string as the entry's final URL. -/
def Fetch (hashKey : String → String) (transport : String → FetchOutcome)
    (c : Cache) (now : Int) (url : String)
    (validator : Option (List Nat → Bool)) : FetchOut :=
  match transport url with
  | .reqErr e => { data := none, err := some e, cache := c, fetched := false }
  | .doErr e => { data := none, err := some e, cache := c, fetched := true }
  | .readErr _ e => { data := none, err := some e, cache := c, fetched := true }
  | .ok body _ =>
    let ttl := Cache.GetTTL c url
    if 0 < ttl then
      let shouldCache :=
        match validator with
        | none => true
        | some v => v body
      if shouldCache then
        { data := some body, err := none,
          cache := Cache.Set c now (hashKey url) body url ("") ttl,
          fetched := true }
      else { data := some body, err := none, cache := c, fetched := true }
    else { data := some body, err := none, cache := c, fetched := true }

/-- Result of `HTTPClient.FetchWithFinalURL`: the Go triple
`([]byte, string, error)` plus cache state and the network flag. -/
structure FetchURLOut where
  data : Option (List Nat)
  finalURL : String
  err : Option String
  cache : Cache
  fetched : Bool

/-- Go `HTTPClient.FetchWithFinalURL`: always performs the network
request (no cache read, no validator), then overwrites the cache entry
when the resolved TTL is positive, storing the observed final URL. -/
def FetchWithFinalURL (hashKey : String → String)
    (transport : String → FetchOutcome) (c : Cache) (now : Int)
    (url : String) : FetchURLOut :=
  match transport url with
  | .reqErr e =>
    { data := none, finalURL := "", err := some e, cache := c, fetched := false }
  | .doErr e =>
    { data := none, finalURL := "", err := some e, cache := c, fetched := true }
  | .readErr f e =>
    { data := none, finalURL := f, err := some e, cache := c, fetched := true }
  | .ok body f =>
    let ttl := Cache.GetTTL c url
    if 0 < ttl then
      { data := some body, finalURL := f, err := none,
        cache := Cache.Set c now (hashKey url) body url f ttl,
        fetched := true }
    else
      { data := some body, finalURL := f, err := none, cache := c,
        fetched := true }

/-- Go `HTTPClient.DeleteURL`: derive the key and delete unconditionally. -/
def DeleteURL (hashKey : String → String) (c : Cache) (url : String) : Cache :=
  Cache.Delete c (hashKey url)

/-- A regex-compilation stub that accepts every pattern and returns the
match-all matcher; used to instantiate the loader's `compile` parameter on
concrete inputs. -/
def compileTrivial : String → Except String (String → Bool) :=
  fun _ => .ok matchAll

/-- Does the string begin with the character `-` (the sign test at the
head of `ParseDuration`). -/
def startsWithMinus (s : String) : Bool :=
  match s.toList with
  | '-' :: _ => true
  | _ => false

/-- Concrete single-entry store used to instantiate theorems. -/
def storeW (e : CacheEntry) : Store :=
  fun k => if k = "u" then some (.enc e) else none

/-- Concrete store with no entries. -/
def emptyStore : Store := fun _ => none

/-- Concrete fresh cache entry (requested URL `"u"`). -/
def entryW : CacheEntry :=
  { data := [1, 2, 3], url := "u", finalURL := "v",
    crawledAt := some 100, expiresAt := 700000000100 }

/-- Concrete legacy-free cache holding `entryW` under key `"u"`. -/
def cacheW : Cache := { policies := [defaultPolicy], store := storeW entryW }

/-- Concrete cache with an empty store. -/
def cacheE : Cache := { policies := [defaultPolicy], store := emptyStore }

/-- Concrete stale cache entry crawled at time 0 (requested URL `"u"`). -/
def entryOld : CacheEntry :=
  { data := [4], url := "u", finalURL := "w",
    crawledAt := some 0, expiresAt := 600000000000 }

/-- Concrete cache holding the stale `entryOld` under key `"u"`. -/
def cacheOld : Cache :=
  { policies := [defaultPolicy], store := storeW entryOld }

/-- Identity key derivation used to instantiate the `hashKey` parameter. -/
def idKey : String → String := fun s => s

/-- Transport that always succeeds with body `[7]` and final URL `"w"`. -/
def okTransport : String → FetchOutcome := fun _ => .ok [7] "w"

/-- Transport that always fails at `Client.Do` with error `"boom"`. -/
def errTransport : String → FetchOutcome := fun _ => .doErr ("boom")

/-- First-match-wins characterisation of `getTTL`: whenever some policy in
the list matches, there is a first matching index, and `getTTL` returns
exactly that policy's TTL. -/
theorem getTTL_first_match (ps : List CachePolicy) (url : String)
    (hex : ∃ p ∈ ps, p.pattern url = true) :
    ∃ (i : Nat) (hi : i < ps.length),
      (ps.get ⟨i, hi⟩).pattern url = true ∧
      (∀ j (hj : j < i), (ps.get ⟨j, Nat.lt_trans hj hi⟩).pattern url = false) ∧
      getTTL ps url = (ps.get ⟨i, hi⟩).ttl := by
  induction ps with
  | nil =>
    rcases hex with ⟨p, hp, _⟩
    exact absurd hp (List.not_mem_nil p)
  | cons p ps ih =>
    by_cases hp : p.pattern url = true
    · refine ⟨0, Nat.succ_pos _, hp, ?_, ?_⟩
      · intro j hj; exact absurd hj (Nat.not_lt_zero j)
      · simp [getTTL, hp]
    · have hp' : p.pattern url = false := by
        cases hpv : p.pattern url
        · rfl
        · exact absurd hpv hp
      rcases hex with ⟨q, hq, hqm⟩
      rcases List.mem_cons.mp hq with rfl | hq'
      · exact absurd hqm hp
      · rcases ih ⟨q, hq', hqm⟩ with ⟨i, hi, h1, h2, h3⟩
        refine ⟨i + 1, Nat.succ_lt_succ hi, ?_, ?_, ?_⟩
        · simpa using h1
        · intro j hj
          cases j with
          | zero => simpa using hp'
          | succ j' =>
            have := h2 j' (Nat.lt_of_succ_lt_succ hj)
            simpa using this
        · simp only [getTTL, hp', if_false, Bool.false_eq_true]
          simpa using h3

/-- When no policy in the list matches the URL, `getTTL` falls through to
its `return 0`. -/
theorem getTTL_zero_of_no_match (ps : List CachePolicy) (url : String)
    (h : ∀ p ∈ ps, p.pattern url = false) : getTTL ps url = 0 := by
  induction ps with
  | nil => rfl
  | cons p ps ih =>
    have hp := h p (List.mem_cons_self p ps)
    have hr := ih (fun q hq => h q (List.mem_cons_of_mem p hq))
    simp [getTTL, hp, hr]

/-- Every successful load ends with the catch-all default policy. -/
theorem load_default_last (compile : String → Except String (String → Bool))
    (file : Option (List String)) (ps : List CachePolicy)
    (h : LoadPoliciesFromFile compile file = .ok ps) :
    ∃ ps₀, ps = ps₀ ++ [defaultPolicy] := by
  unfold LoadPoliciesFromFile at h
  split at h
  · exact ⟨[], by injection h with h'; exact h'.symm⟩
  · split at h
    · cases h
    · injection h with h'
      exact ⟨_, h'.symm⟩

/-- A duration accepted by `ParseDuration` from a string that does not
begin with `-` is nonnegative: the loop accumulates an unsigned total and
the sign is applied only for a leading minus. -/
theorem parseDuration_nonneg (s : String) (d : Duration)
    (h : ParseDuration s = .ok d) (hm : startsWithMinus s = false) : 0 ≤ d := by
  have body : ∀ (orig : String) (cs : List Char),
      parseDurationBody false orig cs = .ok d → 0 ≤ d := by
    intro orig cs hb
    unfold parseDurationBody at hb
    split at hb
    · injection hb with h'
      subst h'
      exact Int.le_refl 0
    · split at hb
      · cases hb
      · rcases hdl : durationLoop orig (cs.length + 1) 0 cs with e | dn
        · rw [hdl] at hb; cases hb
        · rw [hdl] at hb
          simp only [Bool.false_eq_true, if_false] at hb
          split at hb
          · cases hb
          · injection hb with h'
            rw [← h']
            exact Int.ofNat_nonneg dn
  unfold ParseDuration at h
  unfold startsWithMinus at hm
  split at h
  · rename_i rest heq
    rw [heq] at hm
    simp at hm
  · exact body _ _ h
  · exact body _ _ h

/-- A policy produced from one line whose duration text (after comment
stripping, trimming and the last-`=` split) does not begin with `-` has a
nonnegative TTL. -/
theorem parsePolicyLine_ttl_nonneg
    (compile : String → Except String (String → Bool)) (line : String)
    (p : CachePolicy) (h : parsePolicyLine compile line = .ok (some p))
    (hnm : ∀ pat dur, classifyLine line = .policy pat dur →
      startsWithMinus dur = false) : 0 ≤ p.ttl := by
  unfold parsePolicyLine at h
  split at h
  · injection h with h'; cases h'
  · cases h
  · rename_i pat dur heq
    split at h
    · cases h
    · rename_i matcher hc
      split at h
      · cases h
      · rename_i d hd
        injection h with h'
        injection h' with h''
        subst h''
        exact parseDuration_nonneg dur d hd (hnm pat dur heq)

/-- All policies produced by the scanner loop from lines whose duration
texts do not begin with `-` have nonnegative TTLs. -/
theorem loadPolicyLines_ttl_nonneg
    (compile : String → Except String (String → Bool)) :
    ∀ (lines : List String) (ps : List CachePolicy),
      loadPolicyLines compile lines = .ok ps →
      (∀ line ∈ lines, ∀ pat dur, classifyLine line = .policy pat dur →
        startsWithMinus dur = false) →
      ∀ p ∈ ps, 0 ≤ p.ttl := by
  intro lines
  induction lines with
  | nil =>
    intro ps h _ p hp
    injection h with h'
    rw [← h'] at hp
    exact absurd hp (List.not_mem_nil p)
  | cons l ls ih =>
    intro ps h hnm p hp
    unfold loadPolicyLines at h
    split at h
    · cases h
    · exact ih ps h
        (fun line hl => hnm line (List.mem_cons_of_mem l hl)) p hp
    · rename_i q hq
      rcases hls : loadPolicyLines compile ls with e | ps'
      · rw [hls] at h; cases h
      · rw [hls] at h
        injection h with h'
        rw [← h'] at hp
        rcases List.mem_cons.mp hp with rfl | hp'
        · exact parsePolicyLine_ttl_nonneg compile l p hq
            (hnm l (List.mem_cons_self l ls))
        · exact ih ps' hls
            (fun line hl => hnm line (List.mem_cons_of_mem l hl)) p hp'

/-- C3: for every URL string and every policy list produced by
`LoadPoliciesFromFile`, `getTTL` (the loop of `Cache.GetTTL`, where a
policy's `pattern` field is the matching behaviour of its compiled regular
expression under `MatchString`, i.e. substring matching) returns the TTL
of the first policy in list order that matches the URL; such a first match
always exists — the fallback `return 0` is never taken — because loading
always appends the catch-all `.*` default policy last. -/
theorem getTTL_first_match_after_load
    (compile : String → Except String (String → Bool))
    (file : Option (List String)) (ps : List CachePolicy) (url : String)
    (h : LoadPoliciesFromFile compile file = .ok ps) :
    ∃ (i : Nat) (hi : i < ps.length),
      (ps.get ⟨i, hi⟩).pattern url = true ∧
      (∀ j (hj : j < i), (ps.get ⟨j, Nat.lt_trans hj hi⟩).pattern url = false) ∧
      getTTL ps url = (ps.get ⟨i, hi⟩).ttl := by
  apply getTTL_first_match
  rcases load_default_last compile file ps h with ⟨ps₀, rfl⟩
  refine ⟨defaultPolicy, ?_, rfl⟩
  exact List.mem_append_right ps₀ (List.mem_singleton.mpr rfl)

/-- C3 witness: loading the single line `a=5m` yields that policy followed
by the catch-all, and TTL resolution picks the first matching policy. -/
theorem getTTL_first_match_after_load_witness :
    (LoadPoliciesFromFile compileTrivial (some ["a=5m"]) =
      .ok [{ pattern := matchAll, ttl := 300000000000 }, defaultPolicy]) ∧
    (∃ (i : Nat)
      (hi : i < ([{ pattern := matchAll, ttl := 300000000000 }, defaultPolicy] :
          List CachePolicy).length),
      (([{ pattern := matchAll, ttl := 300000000000 }, defaultPolicy] :
          List CachePolicy).get ⟨i, hi⟩).pattern ("http://x") = true ∧
      (∀ j (hj : j < i),
        (([{ pattern := matchAll, ttl := 300000000000 }, defaultPolicy] :
            List CachePolicy).get ⟨j, Nat.lt_trans hj hi⟩).pattern ("http://x") =
          false) ∧
      getTTL [{ pattern := matchAll, ttl := 300000000000 }, defaultPolicy]
          "http://x" =
        (([{ pattern := matchAll, ttl := 300000000000 }, defaultPolicy] :
            List CachePolicy).get ⟨i, hi⟩).ttl) :=
  ⟨rfl, getTTL_first_match_after_load compileTrivial (some ["a=5m"])
    [{ pattern := matchAll, ttl := 300000000000 }, defaultPolicy]
    "http://x" rfl⟩

/-- C4: the spec and the repository's own README state that durations
accept units `s`, `m`, `h` and `d` (days) — the shipped sample policy file
even uses `7d` — but the loader delegates to Go `time.ParseDuration`,
whose unit table has no `d`: a policy line using the `d` unit makes the
whole load abort with an invalid-duration error, while `s`/`m`/`h` lines
(including compound forms such as `1h30m`) load fine. -/
theorem load_rejects_day_unit :
    (LoadPoliciesFromFile compileTrivial
        (some ["a=10s", "b=5m", "c=2h", "d=1h30m"])).map
        (fun l => l.map (fun p => p.ttl)) =
      .ok [10000000000, 300000000000, 7200000000000, 5400000000000,
        600000000000] ∧
    ParseDuration ("1d") = .error ("time: unknown unit \"d\" in duration \"1d\"") ∧
    LoadPoliciesFromFile compileTrivial (some ["a=1d"]) =
      .error ("invalid duration: time: unknown unit \"d\" in duration \"1d\"") ∧
    LoadPoliciesFromFile compileTrivial
        (some [".*\\/news\\/archive\\/.*=7d"]) =
      .error ("invalid duration: time: unknown unit \"d\" in duration \"7d\"") :=
  ⟨rfl, rfl, rfl, rfl⟩

/-- C7 counterexample: the file consisting of the single line `a=-5m`
loads successfully, and its first policy carries the negative TTL
−300000000000 ns (−5 minutes) — loading does not enforce `ttl ≥ 0`. -/
theorem load_accepts_negative_ttl :
    (LoadPoliciesFromFile compileTrivial (some ["a=-5m"])).map
        (fun l => l.map (fun p => p.ttl)) =
      .ok [-300000000000, 600000000000] ∧
    (-300000000000 : Int) < 0 :=
  ⟨rfl, by decide⟩

/-- C7 as amended: every `CachePolicy` produced by a successful load has a
TTL ≥ 0 **provided** no line's duration text (the part after the last `=`,
after comment stripping and trimming) begins with a `-` sign; loading
itself never enforces nonnegativity, and a leading `-` is accepted and
yields a negative TTL. -/
theorem load_ttl_nonneg_without_minus
    (compile : String → Except String (String → Bool))
    (lines : List String) (ps : List CachePolicy)
    (h : LoadPoliciesFromFile compile (some lines) = .ok ps)
    (hnm : ∀ line ∈ lines, ∀ pat dur, classifyLine line = .policy pat dur →
      startsWithMinus dur = false) :
    ∀ p ∈ ps, 0 ≤ p.ttl := by
  simp only [LoadPoliciesFromFile] at h
  rcases hls : loadPolicyLines compile lines with e | ps₀
  · rw [hls] at h; cases h
  · rw [hls] at h
    injection h with h'
    intro p hp
    rw [← h'] at hp
    rcases List.mem_append.mp hp with hp₀ | hp₁
    · exact loadPolicyLines_ttl_nonneg compile lines ps₀ hls hnm p hp₀
    · rcases List.mem_singleton.mp hp₁ with rfl
      decide

/-- C7 amended witness: the single line `a=5m` has a minus-free duration
text, loads to a concrete policy list, and every policy in it has a
nonnegative TTL. -/
theorem load_ttl_nonneg_without_minus_witness :
    (LoadPoliciesFromFile compileTrivial (some ["a=5m"]) =
      .ok [{ pattern := matchAll, ttl := 300000000000 }, defaultPolicy]) ∧
    (∀ line ∈ ["a=5m"], ∀ pat dur, classifyLine line = .policy pat dur →
      startsWithMinus dur = false) ∧
    (∀ p ∈ [({ pattern := matchAll, ttl := 300000000000 } : CachePolicy),
        defaultPolicy], 0 ≤ p.ttl) := by
  have hnm : ∀ line ∈ ["a=5m"], ∀ pat dur,
      classifyLine line = .policy pat dur → startsWithMinus dur = false := by
    intro line hl pat dur hcd
    rcases List.mem_singleton.mp hl with rfl
    rw [show classifyLine ("a=5m") = LineForm.policy ("a") "5m" from rfl] at hcd
    cases hcd
    rfl
  exact ⟨rfl, hnm,
    load_ttl_nonneg_without_minus compileTrivial ["a=5m"]
      [{ pattern := matchAll, ttl := 300000000000 }, defaultPolicy] rfl hnm⟩

/-- The store entry of a `Cache.Delete`, pointwise. -/
theorem cacheDelete_store (c : Cache) (key k : String) :
    (Cache.Delete c key).store k = if k = key then none else c.store k := rfl

/-- `Cache.Get` on an absent key (or a backend read error). -/
theorem cacheGet_eq_none (c : Cache) (now : Int) (key : String)
    (hs : c.store key = none) : Cache.Get c now key = (none, c) := by
  unfold Cache.Get
  rw [hs]

/-- `Cache.Get` on undecodable bytes: absent, nothing deleted. -/
theorem cacheGet_eq_garbage (c : Cache) (now : Int) (key : String)
    (hs : c.store key = some .garbage) : Cache.Get c now key = (none, c) := by
  unfold Cache.Get
  rw [hs]

/-- `Cache.Get` on a decoded entry: expiry decides between lazy deletion
and a hit. -/
theorem cacheGet_eq_entry (c : Cache) (now : Int) (key : String)
    (e : CacheEntry) (hs : c.store key = some (.enc e)) :
    Cache.Get c now key =
      if isExpired c.policies now e = true
      then (none, { c with store := storeDelete c.store key })
      else (some (e.data, e.finalURL), c) := by
  unfold Cache.Get
  rw [hs]

/-- The read phase is skipped entirely when the TTL is not positive. -/
theorem readPhase_nonpos (c : Cache) (now : Int) (key : String)
    (validator : Option (List Nat → Bool)) (ttl : Duration)
    (h : ¬ 0 < ttl) : readPhase c now key validator ttl = (none, c) := by
  unfold readPhase
  rw [if_neg h]

/-- The read phase on a cache miss. -/
theorem readPhase_pos_none (c : Cache) (now : Int) (key : String)
    (validator : Option (List Nat → Bool)) (ttl : Duration) (c₁ : Cache)
    (httl : 0 < ttl) (hg : Cache.Get c now key = (none, c₁)) :
    readPhase c now key validator ttl = (none, c₁) := by
  unfold readPhase
  rw [if_pos httl, hg]

/-- The read phase on a hit with no validator. -/
theorem readPhase_pos_hit_nov (c : Cache) (now : Int) (key : String)
    (ttl : Duration) (value : List Nat) (finalURL : String) (c₁ : Cache)
    (httl : 0 < ttl)
    (hg : Cache.Get c now key = (some (value, finalURL), c₁)) :
    readPhase c now key none ttl = (some (value, finalURL), c₁) := by
  unfold readPhase
  rw [if_pos httl, hg]

/-- The read phase on a hit the validator accepts. -/
theorem readPhase_pos_hit_accept (c : Cache) (now : Int) (key : String)
    (ttl : Duration) (v : List Nat → Bool) (value : List Nat)
    (finalURL : String) (c₁ : Cache) (httl : 0 < ttl)
    (hg : Cache.Get c now key = (some (value, finalURL), c₁))
    (hv : v value = true) :
    readPhase c now key (some v) ttl = (some (value, finalURL), c₁) := by
  unfold readPhase
  rw [if_pos httl, hg]
  simp [hv]

/-- The read phase on a hit the validator rejects: the invalid entry is
deleted and the phase reports a miss. -/
theorem readPhase_pos_hit_reject (c : Cache) (now : Int) (key : String)
    (ttl : Duration) (v : List Nat → Bool) (value : List Nat)
    (finalURL : String) (c₁ : Cache) (httl : 0 < ttl)
    (hg : Cache.Get c now key = (some (value, finalURL), c₁))
    (hv : v value = false) :
    readPhase c now key (some v) ttl = (none, Cache.Delete c₁ key) := by
  unfold readPhase
  rw [if_pos httl, hg]
  simp [hv]

/-- The read phase never changes the policy list. -/
theorem readPhase_policies (c : Cache) (now : Int) (key : String)
    (validator : Option (List Nat → Bool)) (ttl : Duration) :
    ((readPhase c now key validator ttl).2).policies = c.policies := by
  by_cases httl : 0 < ttl
  · rcases hs : c.store key with _ | v
    · rw [readPhase_pos_none c now key validator ttl c httl
        (cacheGet_eq_none c now key hs)]
    · cases v with
      | garbage =>
        rw [readPhase_pos_none c now key validator ttl c httl
          (cacheGet_eq_garbage c now key hs)]
      | enc e =>
        have hge := cacheGet_eq_entry c now key e hs
        by_cases he : isExpired c.policies now e = true
        · rw [if_pos he] at hge
          rw [readPhase_pos_none c now key validator ttl _ httl hge]
        · rw [if_neg he] at hge
          cases validator with
          | none =>
            rw [readPhase_pos_hit_nov c now key ttl e.data e.finalURL c
              httl hge]
          | some v =>
            rcases hv : v e.data with _ | _
            · rw [readPhase_pos_hit_reject c now key ttl v e.data
                e.finalURL c httl hge hv]
              rfl
            · rw [readPhase_pos_hit_accept c now key ttl v e.data
                e.finalURL c httl hge hv]
  · rw [readPhase_nonpos c now key validator ttl httl]

/-- The read phase leaves every store slot unchanged or deletes it (a
rejected or expired entry is deleted; nothing is ever written). -/
theorem readPhase_store (c : Cache) (now : Int) (key : String)
    (validator : Option (List Nat → Bool)) (ttl : Duration) (k : String) :
    ((readPhase c now key validator ttl).2).store k = c.store k ∨
    ((readPhase c now key validator ttl).2).store k = none := by
  by_cases httl : 0 < ttl
  · rcases hs : c.store key with _ | v
    · rw [readPhase_pos_none c now key validator ttl c httl
        (cacheGet_eq_none c now key hs)]
      left; rfl
    · cases v with
      | garbage =>
        rw [readPhase_pos_none c now key validator ttl c httl
          (cacheGet_eq_garbage c now key hs)]
        left; rfl
      | enc e =>
        have hge := cacheGet_eq_entry c now key e hs
        by_cases he : isExpired c.policies now e = true
        · rw [if_pos he] at hge
          rw [readPhase_pos_none c now key validator ttl _ httl hge]
          by_cases hk : k = key
          · right; simp [storeDelete, hk]
          · left; simp [storeDelete, hk]
        · rw [if_neg he] at hge
          cases validator with
          | none =>
            rw [readPhase_pos_hit_nov c now key ttl e.data e.finalURL c
              httl hge]
            left; rfl
          | some v =>
            rcases hv : v e.data with _ | _
            · rw [readPhase_pos_hit_reject c now key ttl v e.data
                e.finalURL c httl hge hv]
              by_cases hk : k = key
              · right
                show (Cache.Delete c key).store k = none
                rw [cacheDelete_store, if_pos hk]
              · left
                show (Cache.Delete c key).store k = c.store k
                rw [cacheDelete_store, if_neg hk]
            · rw [readPhase_pos_hit_accept c now key ttl v e.data
                e.finalURL c httl hge hv]
              left; rfl
  · rw [readPhase_nonpos c now key validator ttl httl]
    left; rfl

/-- A read phase that misses is stable: running it again on the cache it
produced misses again, with no further state change. -/
theorem readPhase_none_stable (c : Cache) (now : Int) (key : String)
    (validator : Option (List Nat → Bool)) (ttl : Duration) (c₁ : Cache)
    (h : readPhase c now key validator ttl = (none, c₁)) :
    readPhase c₁ now key validator ttl = (none, c₁) := by
  by_cases httl : 0 < ttl
  · rcases hs : c.store key with _ | v
    · rw [readPhase_pos_none c now key validator ttl c httl
        (cacheGet_eq_none c now key hs)] at h
      injection h with h1 h2
      subst h2
      exact readPhase_pos_none c now key validator ttl c httl
        (cacheGet_eq_none c now key hs)
    · cases v with
      | garbage =>
        rw [readPhase_pos_none c now key validator ttl c httl
          (cacheGet_eq_garbage c now key hs)] at h
        injection h with h1 h2
        subst h2
        exact readPhase_pos_none c now key validator ttl c httl
          (cacheGet_eq_garbage c now key hs)
      | enc e =>
        have hge := cacheGet_eq_entry c now key e hs
        by_cases he : isExpired c.policies now e = true
        · rw [if_pos he] at hge
          rw [readPhase_pos_none c now key validator ttl _ httl hge] at h
          injection h with h1 h2
          subst h2
          have hk : ({ c with store := storeDelete c.store key } : Cache).store
              key = none := by simp [storeDelete]
          exact readPhase_pos_none _ now key validator ttl _ httl
            (cacheGet_eq_none _ now key hk)
        · rw [if_neg he] at hge
          cases validator with
          | none =>
            rw [readPhase_pos_hit_nov c now key ttl e.data e.finalURL c
              httl hge] at h
            cases h
          | some v =>
            rcases hv : v e.data with _ | _
            · rw [readPhase_pos_hit_reject c now key ttl v e.data
                e.finalURL c httl hge hv] at h
              injection h with h1 h2
              subst h2
              have hk : (Cache.Delete c key).store key = none := by
                rw [cacheDelete_store, if_pos rfl]
              exact readPhase_pos_none _ now key (some v) ttl _ httl
                (cacheGet_eq_none _ now key hk)
            · rw [readPhase_pos_hit_accept c now key ttl v e.data
                e.finalURL c httl hge hv] at h
              cases h
  · rw [readPhase_nonpos c now key validator ttl httl] at h
    injection h with h1 h2
    subst h2
    exact readPhase_nonpos c now key validator ttl httl

/-- C1: when the resolved TTL is positive, a non-expired entry sits under
the URL's derived key, and the supplied validator accepts its data (or no
validator is supplied), `GetWithValidator` returns the cached data bytes
and the entry's stored final URL with no error and performs no network
fetch, leaving the cache untouched; a second call under the same
conditions again returns the identical bytes without fetching. -/
theorem getWithValidator_cache_hit (hashKey : String → String)
    (transport : String → FetchOutcome) (c : Cache) (now : Int)
    (url : String) (validator : Option (List Nat → Bool)) (e : CacheEntry)
    (httl : 0 < Cache.GetTTL c url)
    (hst : c.store (hashKey url) = some (.enc e))
    (hfresh : isExpired c.policies now e = false)
    (hval : validator = none ∨ ∃ v, validator = some v ∧ v e.data = true) :
    (GetWithValidator hashKey transport c now url validator).data =
      some e.data ∧
    (GetWithValidator hashKey transport c now url validator).finalURL =
      e.finalURL ∧
    (GetWithValidator hashKey transport c now url validator).err = none ∧
    (GetWithValidator hashKey transport c now url validator).fetched =
      false ∧
    (GetWithValidator hashKey transport c now url validator).cache = c ∧
    (GetWithValidator hashKey transport
      (GetWithValidator hashKey transport c now url validator).cache
      now url validator).data = some e.data ∧
    (GetWithValidator hashKey transport
      (GetWithValidator hashKey transport c now url validator).cache
      now url validator).fetched = false := by
  have hge := cacheGet_eq_entry c now (hashKey url) e hst
  rw [if_neg (by rw [hfresh]; exact Bool.false_ne_true)] at hge
  have hread : readPhase c now (hashKey url) validator (Cache.GetTTL c url)
      = (some (e.data, e.finalURL), c) := by
    rcases hval with rfl | ⟨v, rfl, hv⟩
    · exact readPhase_pos_hit_nov c now (hashKey url) _ e.data e.finalURL c
        httl hge
    · exact readPhase_pos_hit_accept c now (hashKey url) _ v e.data
        e.finalURL c httl hge hv
  have hmain : GetWithValidator hashKey transport c now url validator =
      { data := some e.data, finalURL := e.finalURL, err := none,
        cache := c, fetched := false } := by
    simp only [GetWithValidator]
    rw [hread]
  have hc : (GetWithValidator hashKey transport c now url validator).cache
      = c := by rw [hmain]
  refine ⟨by rw [hmain], by rw [hmain], by rw [hmain], by rw [hmain], hc,
    ?_, ?_⟩
  · rw [hc, hmain]
  · rw [hc, hmain]

/-- C1 witness: with the concrete cache `cacheW` holding the fresh entry
`entryW` at the key of `"u"`, a validator-less read at time 100 is served
from the cache twice without fetching. -/
theorem getWithValidator_cache_hit_witness :
    (0 < Cache.GetTTL cacheW ("u")) ∧
    (cacheW.store (idKey ("u")) = some (.enc entryW)) ∧
    (isExpired cacheW.policies 100 entryW = false) ∧
    (GetWithValidator idKey okTransport cacheW 100 ("u") none).data =
      some entryW.data ∧
    (GetWithValidator idKey okTransport cacheW 100 ("u") none).fetched =
      false ∧
    (GetWithValidator idKey okTransport
      (GetWithValidator idKey okTransport cacheW 100 ("u") none).cache
      100 ("u") none).fetched = false :=
  ⟨by decide, rfl, by decide,
    (getWithValidator_cache_hit idKey okTransport cacheW 100 ("u") none
      entryW (by decide) rfl (by decide) (Or.inl rfl)).1,
    (getWithValidator_cache_hit idKey okTransport cacheW 100 ("u") none
      entryW (by decide) rfl (by decide) (Or.inl rfl)).2.2.2.1,
    (getWithValidator_cache_hit idKey okTransport cacheW 100 ("u") none
      entryW (by decide) rfl (by decide) (Or.inl rfl)).2.2.2.2.2.2⟩

/-- C2: on a `Cache.Get` of a decoded entry, an entry with `CrawledAt`
present is expired exactly when `now - crawledAt` exceeds the TTL resolved
for the stored requested URL against the policy list held by the cache at
read time; an entry with the zero `CrawledAt` is expired exactly when
`now` is after its stored absolute `ExpiresAt`; an expired entry is
deleted from the store and the read reports absent, while a fresh entry is
returned unchanged. -/
theorem cacheGet_expiry_rule (c : Cache) (now : Int) (key : String)
    (e : CacheEntry) (hst : c.store key = some (.enc e)) :
    (∀ t, e.crawledAt = some t →
      (isExpired c.policies now e = true ↔
        now - t > getTTL c.policies e.url)) ∧
    (e.crawledAt = none →
      (isExpired c.policies now e = true ↔ now > e.expiresAt)) ∧
    (isExpired c.policies now e = true →
      (Cache.Get c now key).1 = none ∧
      ((Cache.Get c now key).2).store key = none) ∧
    (isExpired c.policies now e = false →
      (Cache.Get c now key).1 = some (e.data, e.finalURL) ∧
      (Cache.Get c now key).2 = c) := by
  have hge := cacheGet_eq_entry c now key e hst
  refine ⟨?_, ?_, ?_, ?_⟩
  · intro t ht
    unfold isExpired
    rw [ht]
    exact decide_eq_true_iff
  · intro ht
    unfold isExpired
    rw [ht]
    exact decide_eq_true_iff
  · intro hexp
    rw [if_pos hexp] at hge
    rw [hge]
    exact ⟨rfl, by simp [storeDelete]⟩
  · intro hfr
    rw [if_neg (by rw [hfr]; exact Bool.false_ne_true)] at hge
    rw [hge]
    exact ⟨rfl, rfl⟩

/-- C2 witness: the entry `entryOld` crawled at time 0 under the default
10-minute policy is expired at time 10^15 ns; reading it deletes it and
reports absent. -/
theorem cacheGet_expiry_rule_witness :
    (cacheOld.store ("u") = some (.enc entryOld)) ∧
    (isExpired cacheOld.policies 1000000000000000 entryOld = true) ∧
    ((Cache.Get cacheOld 1000000000000000 ("u")).1 = none ∧
      ((Cache.Get cacheOld 1000000000000000 ("u")).2).store ("u") = none) :=
  ⟨rfl, by decide,
    (cacheGet_expiry_rule cacheOld 1000000000000000 ("u") entryOld
      rfl).2.2.1 (by decide)⟩

/-- C5: when the call reaches the network, the fetch succeeds, and the
validator rejects the freshly fetched bytes, `GetWithValidator` still
returns those bytes and the observed final URL with no error, writes
nothing to the store (slots are at most deleted, never filled), and a
subsequent identical call fetches from the network again. -/
theorem getWithValidator_fresh_reject (hashKey : String → String)
    (transport : String → FetchOutcome) (c : Cache) (now : Int)
    (url : String) (v : List Nat → Bool) (body : List Nat) (f : String)
    (htr : transport url = .ok body f)
    (hrej : v body = false)
    (hfetch : (GetWithValidator hashKey transport c now url
      (some v)).fetched = true) :
    (GetWithValidator hashKey transport c now url (some v)).data =
      some body ∧
    (GetWithValidator hashKey transport c now url (some v)).finalURL = f ∧
    (GetWithValidator hashKey transport c now url (some v)).err = none ∧
    (∀ k, (GetWithValidator hashKey transport c now url
        (some v)).cache.store k = c.store k ∨
      (GetWithValidator hashKey transport c now url
        (some v)).cache.store k = none) ∧
    (GetWithValidator hashKey transport
      (GetWithValidator hashKey transport c now url (some v)).cache
      now url (some v)).fetched = true := by
  rcases hrp : readPhase c now (hashKey url) (some v) (Cache.GetTTL c url)
    with ⟨res, c₁⟩
  cases res with
  | some val =>
    exfalso
    rcases val with ⟨value, finalURL⟩
    simp only [GetWithValidator] at hfetch
    rw [hrp] at hfetch
    simp at hfetch
  | none =>
    have hmain : GetWithValidator hashKey transport c now url (some v) =
        { data := some body, finalURL := f, err := none, cache := c₁,
          fetched := true } := by
      simp only [GetWithValidator]
      rw [hrp, htr]
      simp [hrej]
    have hsub : ∀ k, c₁.store k = c.store k ∨ c₁.store k = none := by
      intro k
      have := readPhase_store c now (hashKey url) (some v)
        (Cache.GetTTL c url) k
      rw [hrp] at this
      exact this
    have hpol : c₁.policies = c.policies := by
      have := readPhase_policies c now (hashKey url) (some v)
        (Cache.GetTTL c url)
      rw [hrp] at this
      exact this
    have httl₁ : Cache.GetTTL c₁ url = Cache.GetTTL c url := by
      unfold Cache.GetTTL
      rw [hpol]
    have hrp₁ : readPhase c₁ now (hashKey url) (some v)
        (Cache.GetTTL c₁ url) = (none, c₁) := by
      rw [httl₁]
      exact readPhase_none_stable c now (hashKey url) (some v)
        (Cache.GetTTL c url) c₁ hrp
    have hsecond : (GetWithValidator hashKey transport c₁ now url
        (some v)).fetched = true := by
      simp only [GetWithValidator]
      rw [hrp₁, htr]
    refine ⟨by rw [hmain], by rw [hmain], by rw [hmain], ?_, ?_⟩
    · intro k
      rw [hmain]
      exact hsub k
    · rw [hmain]
      exact hsecond

/-- C5 witness: with an empty store, a rejecting validator, and a
successful transport, the fresh bytes come back, nothing is cached, and a
second call fetches again. -/
theorem getWithValidator_fresh_reject_witness :
    (okTransport ("u") = .ok [7] "w") ∧
    ((fun _ => false : List Nat → Bool) [7] = false) ∧
    ((GetWithValidator idKey okTransport cacheE 100 ("u")
      (some (fun _ => false))).fetched = true) ∧
    (GetWithValidator idKey okTransport cacheE 100 ("u")
      (some (fun _ => false))).data = some [7] ∧
    (GetWithValidator idKey okTransport
      (GetWithValidator idKey okTransport cacheE 100 ("u")
        (some (fun _ => false))).cache
      100 ("u") (some (fun _ => false))).fetched = true :=
  ⟨rfl, rfl, by decide,
    (getWithValidator_fresh_reject idKey okTransport cacheE 100 ("u")
      (fun _ => false) [7] "w" rfl rfl (by decide)).1,
    (getWithValidator_fresh_reject idKey okTransport cacheE 100 ("u")
      (fun _ => false) [7] "w" rfl rfl (by decide)).2.2.2.2⟩

/-- C6: when the call reaches the network and the transport fails,
`GetWithValidator` returns exactly that error with no data, and performs
no cache write for the attempt — every store slot is unchanged or at most
deleted (by the read phase), never filled. -/
theorem getWithValidator_transport_error (hashKey : String → String)
    (transport : String → FetchOutcome) (c : Cache) (now : Int)
    (url : String) (validator : Option (List Nat → Bool)) (e : String)
    (htr : transport url = .doErr e)
    (hfetch : (GetWithValidator hashKey transport c now url
      validator).fetched = true) :
    (GetWithValidator hashKey transport c now url validator).err =
      some e ∧
    (GetWithValidator hashKey transport c now url validator).data =
      none ∧
    (∀ k, (GetWithValidator hashKey transport c now url
        validator).cache.store k = c.store k ∨
      (GetWithValidator hashKey transport c now url
        validator).cache.store k = none) := by
  rcases hrp : readPhase c now (hashKey url) validator (Cache.GetTTL c url)
    with ⟨res, c₁⟩
  cases res with
  | some val =>
    exfalso
    rcases val with ⟨value, finalURL⟩
    simp only [GetWithValidator] at hfetch
    rw [hrp] at hfetch
    simp at hfetch
  | none =>
    have hmain : GetWithValidator hashKey transport c now url validator =
        { data := none, finalURL := "", err := some e, cache := c₁,
          fetched := true } := by
      simp only [GetWithValidator]
      rw [hrp, htr]
    have hsub : ∀ k, c₁.store k = c.store k ∨ c₁.store k = none := by
      intro k
      have := readPhase_store c now (hashKey url) validator
        (Cache.GetTTL c url) k
      rw [hrp] at this
      exact this
    refine ⟨by rw [hmain], by rw [hmain], ?_⟩
    intro k
    rw [hmain]
    exact hsub k

/-- C6 witness: with an empty store and a transport that fails with
`"boom"`, the call fetches, reports exactly that error, and leaves the
store empty. -/
theorem getWithValidator_transport_error_witness :
    (errTransport ("u") = .doErr ("boom")) ∧
    ((GetWithValidator idKey errTransport cacheE 100 ("u") none).fetched =
      true) ∧
    (GetWithValidator idKey errTransport cacheE 100 ("u") none).err =
      some ("boom") ∧
    (GetWithValidator idKey errTransport cacheE 100 ("u") none).data =
      none :=
  ⟨rfl, by decide,
    (getWithValidator_transport_error idKey errTransport cacheE 100 ("u")
      none ("boom") rfl (by decide)).1,
    (getWithValidator_transport_error idKey errTransport cacheE 100 ("u")
      none ("boom") rfl (by decide)).2.1⟩

/-- C10: with a positive TTL, a fresh cached entry whose data the
validator rejects, and a transport that then fails, `GetWithValidator`
returns the transport error while the previously cached entry has already
been deleted from the store — the pre-call cache state is not restored. -/
theorem getWithValidator_reject_then_error (hashKey : String → String)
    (transport : String → FetchOutcome) (c : Cache) (now : Int)
    (url : String) (v : List Nat → Bool) (e : CacheEntry) (err : String)
    (httl : 0 < Cache.GetTTL c url)
    (hst : c.store (hashKey url) = some (.enc e))
    (hfresh : isExpired c.policies now e = false)
    (hrej : v e.data = false)
    (htr : transport url = .doErr err) :
    (GetWithValidator hashKey transport c now url (some v)).err =
      some err ∧
    (GetWithValidator hashKey transport c now url (some v)).data = none ∧
    (GetWithValidator hashKey transport c now url
      (some v)).cache.store (hashKey url) = none := by
  have hge := cacheGet_eq_entry c now (hashKey url) e hst
  rw [if_neg (by rw [hfresh]; exact Bool.false_ne_true)] at hge
  have hread : readPhase c now (hashKey url) (some v) (Cache.GetTTL c url)
      = (none, Cache.Delete c (hashKey url)) :=
    readPhase_pos_hit_reject c now (hashKey url) _ v e.data e.finalURL c
      httl hge hrej
  have hmain : GetWithValidator hashKey transport c now url (some v) =
      { data := none, finalURL := "", err := some err,
        cache := Cache.Delete c (hashKey url), fetched := true } := by
    simp only [GetWithValidator]
    rw [hread, htr]
  refine ⟨by rw [hmain], by rw [hmain], ?_⟩
  rw [hmain]
  show (Cache.Delete c (hashKey url)).store (hashKey url) = none
  rw [cacheDelete_store, if_pos rfl]

/-- C10 witness: the fresh entry `entryW` rejected by a constantly-false
validator is deleted, and the transport error `"boom"` is returned. -/
theorem getWithValidator_reject_then_error_witness :
    (0 < Cache.GetTTL cacheW ("u")) ∧
    (cacheW.store (idKey ("u")) = some (.enc entryW)) ∧
    (isExpired cacheW.policies 100 entryW = false) ∧
    ((fun _ => false : List Nat → Bool) entryW.data = false) ∧
    (errTransport ("u") = .doErr ("boom")) ∧
    (GetWithValidator idKey errTransport cacheW 100 ("u")
      (some (fun _ => false))).err = some ("boom") ∧
    (GetWithValidator idKey errTransport cacheW 100 ("u")
      (some (fun _ => false))).cache.store (idKey ("u")) = none :=
  ⟨by decide, rfl, by decide, rfl, rfl,
    (getWithValidator_reject_then_error idKey errTransport cacheW 100 ("u")
      (fun _ => false) entryW ("boom") (by decide) rfl (by decide) rfl
      rfl).1,
    (getWithValidator_reject_then_error idKey errTransport cacheW 100 ("u")
      (fun _ => false) entryW ("boom") (by decide) rfl (by decide) rfl
      rfl).2.2⟩

/-- C8: `Fetch` and `FetchWithFinalURL` never read the cache — their
result (data, error, network flag) is the same whatever the store holds,
even a fresh non-expired entry — and always perform the network request;
on success with a positive resolved TTL (and, for `Fetch`, validator
acceptance or no validator) they overwrite the entry under the URL's key,
with `Fetch` storing the empty string as the entry's final URL and
`FetchWithFinalURL` storing the observed one. -/
theorem fetch_bypasses_cache (hashKey : String → String)
    (transport : String → FetchOutcome) (policies : List CachePolicy)
    (st₁ st₂ : Store) (now : Int) (url : String) (body : List Nat)
    (f : String) (validator : Option (List Nat → Bool))
    (httl : 0 < getTTL policies url)
    (htr : transport url = .ok body f)
    (hval : validator = none ∨ ∃ v, validator = some v ∧ v body = true) :
    (Fetch hashKey transport ⟨policies, st₁⟩ now url validator).data =
      (Fetch hashKey transport ⟨policies, st₂⟩ now url validator).data ∧
    (FetchWithFinalURL hashKey transport ⟨policies, st₁⟩ now url).data =
      (FetchWithFinalURL hashKey transport ⟨policies, st₂⟩ now url).data ∧
    (Fetch hashKey transport ⟨policies, st₁⟩ now url validator).fetched =
      true ∧
    (Fetch hashKey transport ⟨policies, st₁⟩ now url validator).data =
      some body ∧
    (Fetch hashKey transport ⟨policies, st₁⟩ now url
        validator).cache.store (hashKey url) =
      some (.enc (setEntry now body url ("") (getTTL policies url))) ∧
    (FetchWithFinalURL hashKey transport ⟨policies, st₁⟩ now url).fetched =
      true ∧
    (FetchWithFinalURL hashKey transport ⟨policies, st₁⟩ now url).data =
      some body ∧
    (FetchWithFinalURL hashKey transport ⟨policies, st₁⟩ now
        url).cache.store (hashKey url) =
      some (.enc (setEntry now body url f (getTTL policies url))) := by
  have hshould : ∀ st : Store,
      Fetch hashKey transport ⟨policies, st⟩ now url validator =
        { data := some body, err := none,
          cache := Cache.Set ⟨policies, st⟩ now (hashKey url) body url ("")
            (getTTL policies url),
          fetched := true } := by
    intro st
    simp only [Fetch]
    rw [htr]
    rcases hval with rfl | ⟨v, rfl, hv⟩
    · simp [Cache.GetTTL, httl]
    · simp [Cache.GetTTL, httl, hv]
  have hurl : ∀ st : Store,
      FetchWithFinalURL hashKey transport ⟨policies, st⟩ now url =
        { data := some body, finalURL := f, err := none,
          cache := Cache.Set ⟨policies, st⟩ now (hashKey url) body url f
            (getTTL policies url),
          fetched := true } := by
    intro st
    simp only [FetchWithFinalURL]
    rw [htr]
    simp [Cache.GetTTL, httl]
  refine ⟨?_, ?_, ?_, ?_, ?_, ?_, ?_, ?_⟩
  · rw [hshould st₁, hshould st₂]
  · rw [hurl st₁, hurl st₂]
  · rw [hshould st₁]
  · rw [hshould st₁]
  · rw [hshould st₁]
    show storePut st₁ (hashKey url) _ (hashKey url) = _
    rw [storePut, if_pos rfl]
  · rw [hurl st₁]
  · rw [hurl st₁]
  · rw [hurl st₁]
    show storePut st₁ (hashKey url) _ (hashKey url) = _
    rw [storePut, if_pos rfl]

/-- C8 witness: with the default catch-all policy, `Fetch` and
`FetchWithFinalURL` return the transport body whether the store already
holds the fresh `entryW` or is empty, and overwrite the slot,
`Fetch` with final URL `""` and `FetchWithFinalURL` with `"w"`. -/
theorem fetch_bypasses_cache_witness :
    (0 < getTTL [defaultPolicy] "u") ∧
    (okTransport ("u") = .ok [7] "w") ∧
    (Fetch idKey okTransport ⟨[defaultPolicy], storeW entryW⟩ 100 ("u")
        none).data =
      (Fetch idKey okTransport ⟨[defaultPolicy], emptyStore⟩ 100 ("u")
        none).data ∧
    (Fetch idKey okTransport ⟨[defaultPolicy], storeW entryW⟩ 100 ("u")
        none).cache.store (idKey ("u")) =
      some (.enc (setEntry 100 [7] "u" "" (getTTL [defaultPolicy] "u"))) ∧
    (FetchWithFinalURL idKey okTransport ⟨[defaultPolicy], storeW entryW⟩
        100 ("u")).cache.store (idKey ("u")) =
      some (.enc (setEntry 100 [7] "u" "w" (getTTL [defaultPolicy] "u"))) :=
  ⟨by decide, rfl,
    (fetch_bypasses_cache idKey okTransport [defaultPolicy]
      (storeW entryW) emptyStore 100 ("u") [7] "w" none (by decide) rfl
      (Or.inl rfl)).1,
    (fetch_bypasses_cache idKey okTransport [defaultPolicy]
      (storeW entryW) emptyStore 100 ("u") [7] "w" none (by decide) rfl
      (Or.inl rfl)).2.2.2.2.1,
    (fetch_bypasses_cache idKey okTransport [defaultPolicy]
      (storeW entryW) emptyStore 100 ("u") [7] "w" none (by decide) rfl
      (Or.inl rfl)).2.2.2.2.2.2.2⟩

/-- C9: `NewClient` keeps the caller-supplied policy list exactly as
given, with no catch-all appended; for a URL no supplied pattern matches
(in particular every URL when the list is empty) the resolved TTL is 0, so
`GetWithValidator` (and hence `Get`) neither reads nor writes the cache —
the store is returned pointwise unchanged — and fetches from the
network. -/
theorem newClient_no_catchall (hashKey : String → String)
    (transport : String → FetchOutcome) (st : Store)
    (ps : List CachePolicy) (now : Int) (url : String) (body : List Nat)
    (f : String) (validator : Option (List Nat → Bool))
    (hnm : ∀ p ∈ ps, p.pattern url = false)
    (htr : transport url = .ok body f) :
    (NewClient st ps).policies = ps ∧
    Cache.GetTTL (NewClient st ps) url = 0 ∧
    (GetWithValidator hashKey transport (NewClient st ps) now url
      validator).fetched = true ∧
    (GetWithValidator hashKey transport (NewClient st ps) now url
      validator).data = some body ∧
    (∀ k, (GetWithValidator hashKey transport (NewClient st ps) now url
      validator).cache.store k = st k) := by
  have httl : Cache.GetTTL (NewClient st ps) url = 0 :=
    getTTL_zero_of_no_match ps url hnm
  have hread : readPhase (NewClient st ps) now (hashKey url) validator
      (Cache.GetTTL (NewClient st ps) url) = (none, NewClient st ps) :=
    readPhase_nonpos _ now _ validator _ (by rw [httl]; exact lt_irrefl 0)
  have hmain : GetWithValidator hashKey transport (NewClient st ps) now
      url validator =
      { data := some body, finalURL := f, err := none,
        cache := NewClient st ps, fetched := true } := by
    simp only [GetWithValidator]
    rw [hread, htr]
    simp [httl]
  refine ⟨rfl, httl, by rw [hmain], by rw [hmain], ?_⟩
  intro k
  rw [hmain]
  rfl

/-- C9 witness: with an empty policy list, the resolved TTL of `"u"` is
0, the call fetches, and the store (holding `entryW`) is untouched. -/
theorem newClient_no_catchall_witness :
    (∀ p ∈ ([] : List CachePolicy), p.pattern ("u") = false) ∧
    (okTransport ("u") = .ok [7] "w") ∧
    Cache.GetTTL (NewClient (storeW entryW) []) "u" = 0 ∧
    (GetWithValidator idKey okTransport (NewClient (storeW entryW) [])
      100 ("u") none).fetched = true ∧
    (∀ k, (GetWithValidator idKey okTransport
      (NewClient (storeW entryW) []) 100 ("u") none).cache.store k =
      storeW entryW k) :=
  ⟨fun p hp => absurd hp (List.not_mem_nil p), rfl,
    (newClient_no_catchall idKey okTransport (storeW entryW) [] 100 ("u")
      [7] "w" none (fun p hp => absurd hp (List.not_mem_nil p)) rfl).2.1,
    (newClient_no_catchall idKey okTransport (storeW entryW) [] 100 ("u")
      [7] "w" none (fun p hp => absurd hp (List.not_mem_nil p))
      rfl).2.2.1,
    (newClient_no_catchall idKey okTransport (storeW entryW) [] 100 ("u")
      [7] "w" none (fun p hp => absurd hp (List.not_mem_nil p))
      rfl).2.2.2.2⟩

end HttpCache
